import Mathlib

/-!
# Verification of the dubler synchronizer and its CLI front end

Shallow embedding of the `dubler` file-synchronization tool.

* `cli.py` is present in the repository and is embedded faithfully below
  (`parse`d arguments become the `Args` structure, `load_config`,
  `show_failed_files` and `main` are translated line by line; printing is
  modelled as a list of abstract output events, the filesystem and the
  persistent state store as explicit values threaded through `main`).
* The core modules `config.py` (`Config`, `Config.from_file`), `state.py`
  (`StateManager`) and `sync.py` (`Synchronizer.sync`) are *not* in the
  visible sources; they are modelled from the specification (§3, §4.1–§4.3
  of the spec), and each such definition carries a doc comment saying so.

Paths and file contents are modelled as strings; a destination filesystem
is an association list from (destination root, relative path) to content.
-/

set_option autoImplicit false

namespace Dubler

/-- Modelled from the spec: the Checksum Engine (§4.1) computes a stable,
deterministic, fixed-length content digest of a file's byte content,
independent of metadata.  We model file content as a `String` and the
digest as a 64-bit polynomial hash of its characters. -/
def checksum (s : String) : Nat :=
  s.data.foldl (fun h ch => (h * 131 + ch.toNat) % 18446744073709551616) 5381

/-- A destination-side filesystem: an association list mapping the key
(destination root, relative path) to the file content stored there. -/
abbrev DestFS := List ((String × String) × String)

/-- Look up the content of `destRoot/relPath` in a destination filesystem. -/
def fsLookup : DestFS → String → String → Option String
  | [], _, _ => none
  | ((d', p'), c) :: rest, d, p =>
    if d = d' ∧ p = p' then some c else fsLookup rest d p

/-- A file discovered under the source root: its relative path and its
content (`none` when the file cannot be read, which the Synchronizer must
turn into Fail decisions). -/
structure SrcFile where
  path : String
  content : Option String
deriving Repr, DecidableEq

/-- Modelled from the spec: a persisted FailureRecord (§3): relative file
path, destination root, error message, timestamp. -/
structure FailureRecord where
  file : String
  dest : String
  error : String
  timestamp : Nat
deriving Repr, DecidableEq

/-- Modelled from the spec: `StateManager.record_failure` (§4.3) appends a
FailureRecord with the current timestamp; the store is an append-only log. -/
def record_failure (store : List FailureRecord) (f d e : String) (now : Nat) :
    List FailureRecord :=
  store ++ [⟨f, d, e, now⟩]

/-- Modelled from the spec: `StateManager.get_failed_files` (§4.3) returns
the currently visible failure set; we take the full-log policy (every
record since the last clear, in append order). -/
def get_failed_files (store : List FailureRecord) : List FailureRecord :=
  store

/-- Modelled from the spec: `StateManager.clear_failed_files` (§4.3)
discards all persisted FailureRecords. -/
def clear_failed_files (_store : List FailureRecord) : List FailureRecord :=
  []

/-- The result of one `sync` call (§3): ordered sequences of
(relative path, destination) pairs that were copied, skipped and failed. -/
structure SyncResult where
  copied : List (String × String)
  skipped : List (String × String)
  failed : List (String × String)
deriving Repr, DecidableEq

/-- Output of processing one source file against the destination list:
the per-file contributions to the three result lists, the FailureRecords
appended to the state store, and the updated destination filesystem. -/
structure FileOut where
  copied : List (String × String)
  skipped : List (String × String)
  failed : List (String × String)
  store : List FailureRecord
  fs : DestFS
deriving Repr, DecidableEq

/-- Error text recorded when a source file cannot be read. -/
def readErr (p : String) : String :=
  "cannot read source file " ++ p

/-- Error text recorded when a copy to a destination fails. -/
def writeErr (p d : String) : String :=
  "cannot write " ++ p ++ " to " ++ d

/-- The per-(file, destination) decision of §4.2 step 2a–2b: `true` means
Copy (destination file absent, or present with a different checksum),
`false` means Skip (present and content-equal). -/
def copyDecision (fs : DestFS) (d p : String) (digest : Nat) : Bool :=
  match fsLookup fs d p with
  | none => true
  | some existing => if checksum existing = digest then false else true

/-- Modelled from the spec: the inner loop of `Synchronizer.sync` (§4.2
step 2) for one readable source file `p` with content `c` and source digest
`digest`, over the destination list in order.  `cw d p` says whether the
destination `d` can be written at relative path `p` (directory creation and
byte copy succeed); a failed copy becomes a Fail decision with a persisted
FailureRecord, and never stops the remaining destinations.  Under
`dry = true` a Copy decision is recorded but nothing is written. -/
def syncDests (cw : String → String → Bool) (dry : Bool) (p c : String)
    (digest : Nat) (now : Nat) : List String → DestFS → FileOut
  | [], fs => ⟨[], [], [], [], fs⟩
  | d :: rest, fs =>
    if copyDecision fs d p digest then
      if dry then
        let o := syncDests cw dry p c digest now rest fs
        { o with copied := (p, d) :: o.copied }
      else if cw d p then
        let o := syncDests cw dry p c digest now rest (((d, p), c) :: fs)
        { o with copied := (p, d) :: o.copied }
      else
        let o := syncDests cw dry p c digest now rest fs
        { o with failed := (p, d) :: o.failed,
                 store := ⟨p, d, writeErr p d, now⟩ :: o.store }
    else
      let o := syncDests cw dry p c digest now rest fs
      { o with skipped := (p, d) :: o.skipped }

/-- Modelled from the spec: processing of one discovered source file (§4.2
steps 1–2).  An unreadable file records a Fail decision and a
FailureRecord for every destination (even under dry-run); a readable file
has its checksum computed once and is then evaluated against every
destination.  The second component is the checksum log: the list of source
files whose content digest was computed during this step. -/
def syncFile (cw : String → String → Bool) (dry : Bool) (dests : List String)
    (now : Nat) (f : SrcFile) (fs : DestFS) : FileOut × List String :=
  match f.content with
  | none =>
    (⟨[], [], dests.map (fun d => (f.path, d)),
      dests.map (fun d => ⟨f.path, d, readErr f.path, now⟩), fs⟩, [])
  | some c =>
    (syncDests cw dry f.path c (checksum c) now dests fs, [f.path])

/-- Aggregate outcome of a `sync` call: the SyncResult, the final
destination filesystem, the FailureRecords appended to the state store (in
order of occurrence), and the checksum log (one entry per source-content
digest computation). -/
structure SyncOut where
  res : SyncResult
  fs : DestFS
  store : List FailureRecord
  chkLog : List String
deriving Repr, DecidableEq

/-- Modelled from the spec: the walk of `Synchronizer.sync` over the
discovered source files, in order (§4.2 step 3: every decision is appended
to the corresponding list). -/
def syncGo (cw : String → String → Bool) (dry : Bool) (dests : List String)
    (now : Nat) : List SrcFile → DestFS → SyncOut
  | [], fs => ⟨⟨[], [], []⟩, fs, [], []⟩
  | f :: rest, fs =>
    let s := syncFile cw dry dests now f fs
    let o := syncGo cw dry dests now rest s.1.fs
    ⟨⟨s.1.copied ++ o.res.copied, s.1.skipped ++ o.res.skipped,
      s.1.failed ++ o.res.failed⟩,
     o.fs, s.1.store ++ o.store, s.2 ++ o.chkLog⟩

/-- Modelled from the spec: `Synchronizer.sync(source, destinations,
dry_run)` (§4.2).  `source` is the list of files discovered by the
recursive walk (relative paths preserved), `fs` the destination
filesystems, `store` the persistent failure log at entry; the returned
`store` is the log after all `record_failure` appends of this run. -/
def sync (source : List SrcFile) (destinations : List String)
    (dry_run : Bool) (cw : String → String → Bool) (fs : DestFS)
    (store : List FailureRecord) (now : Nat) : SyncOut :=
  let o := syncGo cw dry_run destinations now source fs
  { o with store := store ++ o.store }

/-! ## The CLI front end (`cli.py`, present in the sources) -/

/-- Modelled from the spec: the layered `Config` of `config.py` with its
built-in defaults (no source, no destinations, dry-run and verbose off),
as used by `cli.py`. -/
structure Config where
  source : Option String := none
  destinations : List String := []
  dry_run : Bool := false
  verbose : Bool := false
deriving Repr, DecidableEq

/-- Modelled from the spec: the parsed content of a JSON config file; each
field is optional, a missing field falls back to the built-in default. -/
structure FileConfig where
  source : Option String := none
  destinations : Option (List String) := none
  dry_run : Option Bool := none
  verbose : Option Bool := none

/-- Modelled from the spec: `Config.from_file` of `config.py` builds a
`Config` from a parsed config file, defaulting the fields the file does
not set. -/
def Config.from_file (fc : FileConfig) : Config :=
  ⟨fc.source, fc.destinations.getD [], fc.dry_run.getD false, fc.verbose.getD false⟩

/-- The argparse namespace produced by `parse_args` in `cli.py`:
`--source` and `--config` are optional paths, `--dest` is an append-action
list (absent ↦ `none`), and the four flags are store-true booleans. -/
structure Args where
  source : Option String := none
  dest : Option (List String) := none
  config : Option String := none
  dry_run : Bool := false
  verbose : Bool := false
  failed : Bool := false
  clear_failed : Bool := false
deriving Repr, DecidableEq

/-- `get_app_dir()` of `cli.py`: the application directory `~/.dubler`
(the home directory is opaque to the model, so the path stays symbolic). -/
def get_app_dir : String := "~/.dubler"

/-- The default config-file path `get_app_dir() / "config.json"`. -/
def defaultConfigPath : String := get_app_dir ++ "/config.json"

/-- The CLI-override pass of `load_config` in `cli.py` (lines 91–99):
each truthy CLI argument overwrites the corresponding field; the
store-true flags can only force `true`, never reset to `false`. -/
def applyCliOverrides (config : Config) (args : Args) : Config :=
  let c1 := match args.source with
    | some s => { config with source := some s }
    | none => config
  let c2 := match args.dest with
    | some ds => if ds.isEmpty then c1 else { c1 with destinations := ds }
    | none => c1
  let c3 := if args.dry_run then { c2 with dry_run := true } else c2
  if args.verbose then { c3 with verbose := true } else c3

/-- The file/default layer of `load_config` in `cli.py` (lines 84–89):
start from `Config()` defaults and replace it with `Config.from_file` when
the chosen config path exists.  `cfgFS` maps a path to the parsed config
file stored there, `none` when no file exists at that path. -/
def baseConfig (args : Args) (cfgFS : String → Option FileConfig) : Config :=
  match cfgFS (args.config.getD defaultConfigPath) with
  | some fc => Config.from_file fc
  | none => {}

/-- `load_config` of `cli.py` (lines 75–101): file/defaults first, then
CLI overrides. -/
def load_config (args : Args) (cfgFS : String → Option FileConfig) : Config :=
  applyCliOverrides (baseConfig args cfgFS) args

/-- One abstract line (or block) of CLI output, in the order printed. -/
inductive OutEvent where
  | noFailedFiles
  | failedHeader (n : Nat)
  | failedDetail (file dest error : String) (timestamp : Nat)
  | clearedMsg
  | errNoSource
  | errNoDest
  | srcLine (s : String)
  | destLine (ds : List String)
  | dryRunNotice
  | blank
  | summary (copied skipped failed : Nat)
  | failedHint (n : Nat)
  | errorLine (msg : String)
deriving Repr, DecidableEq

/-- `show_failed_files` of `cli.py` (lines 104–120): prints a notice when
the store is empty, otherwise a header with the count and then, for each
FailureRecord, its file, destination, error and timestamp. -/
def show_failed_files (store : List FailureRecord) : List OutEvent :=
  if get_failed_files store = [] then
    [.noFailedFiles]
  else
    .failedHeader (get_failed_files store).length ::
      (get_failed_files store).map
        (fun r => .failedDetail r.file r.dest r.error r.timestamp)

/-- The world `main` runs in: the config-file filesystem, whether a
directory exists, the source-tree walk (the files `Synchronizer` discovers
under a given source root), the destination filesystems, destination
writability, the persisted failure log, and the current timestamp. -/
structure World where
  cfgFS : String → Option FileConfig
  dirExists : String → Bool
  srcTree : String → List SrcFile
  destFS : DestFS
  canWrite : String → String → Bool
  store : List FailureRecord
  now : Nat

/-- The observable outcome of one `main` invocation: the printed output,
the persisted failure log and destination filesystems afterwards, the
arguments `Synchronizer.sync` was invoked with (`none` when it was never
invoked), and whether `clear_failed_files` was called. -/
structure MainOut where
  output : List OutEvent
  store : List FailureRecord
  fs : DestFS
  syncCalled : Option (String × List String × Bool)
  clearCalled : Bool
deriving Repr

/-- `main` of `cli.py` (lines 123–181), translated branch by branch:
`--failed` shows the failure log and returns; else `--clear-failed` clears
it and returns; else the configuration is loaded, a missing source or
empty destination list prints an error and returns without syncing;
otherwise the header is printed and `Synchronizer.sync` is invoked with
the merged configuration.  The behaviour of `sync` on a nonexistent source
directory is modelled from the spec (§6: `ConfigError` raised by the core,
`sync.py` not being in the visible sources); `cli.py` catches it in its
`try/except` and prints the error after the fact. -/
def main (args : Args) (w : World) : MainOut :=
  if args.failed then
    ⟨show_failed_files w.store, w.store, w.destFS, none, false⟩
  else if args.clear_failed then
    ⟨[.clearedMsg], clear_failed_files w.store, w.destFS, none, true⟩
  else
    let config := load_config args w.cfgFS
    match config.source with
    | none => ⟨[.errNoSource], w.store, w.destFS, none, false⟩
    | some src =>
      if config.destinations = [] then
        ⟨[.errNoDest], w.store, w.destFS, none, false⟩
      else
        let hdr := [OutEvent.srcLine src, OutEvent.destLine config.destinations]
          ++ (if config.dry_run then [OutEvent.dryRunNotice] else [])
          ++ [OutEvent.blank]
        if w.dirExists src then
          let o := sync (w.srcTree src) config.destinations config.dry_run
            w.canWrite w.destFS w.store w.now
          ⟨hdr
            ++ [OutEvent.summary o.res.copied.length o.res.skipped.length
                  o.res.failed.length]
            ++ (if o.res.failed = [] then []
                else [OutEvent.failedHint o.res.failed.length]),
           o.store, o.fs, some (src, config.destinations, config.dry_run), false⟩
        else
          ⟨hdr ++ [OutEvent.errorLine "source directory does not exist"],
           w.store, w.destFS, some (src, config.destinations, config.dry_run),
           false⟩

/-! ## Concrete example inputs used by witnesses and counterexamples -/

/-- An empty config-file filesystem: no config file exists anywhere. -/
def noCfg : String → Option FileConfig := fun _ => none

/-- A world with one readable source file `a`, an empty destination, and
everything writable. -/
def exWorld : World :=
  ⟨noCfg, fun _ => true, fun _ => [⟨"a", some "X"⟩], [], fun _ _ => true,
   [⟨"a.txt", "/d", "boom", 5⟩], 3⟩

/-- A world whose source directory does not exist. -/
def missingSrcWorld : World :=
  ⟨noCfg, fun _ => false, fun _ => [], [], fun _ _ => true, [], 0⟩

/-! ## Helper lemmas about the CLI layer -/

/-- Field-by-field description of the CLI-override pass. -/
theorem applyCliOverrides_fields (c : Config) (args : Args) :
    (applyCliOverrides c args).source
        = (match args.source with | some s => some s | none => c.source)
    ∧ (applyCliOverrides c args).destinations
        = (match args.dest with
           | some ds => if ds.isEmpty then c.destinations else ds
           | none => c.destinations)
    ∧ (applyCliOverrides c args).dry_run = (c.dry_run || args.dry_run)
    ∧ (applyCliOverrides c args).verbose = (c.verbose || args.verbose) := by
  obtain ⟨asrc, adest, acfg, adry, averb, afail, aclr⟩ := args
  unfold applyCliOverrides
  cases asrc <;> cases adest <;> cases adry <;> cases averb <;> simp <;>
    (rename_i ds; rcases ds with _ | ⟨d, ds⟩ <;> simp)

/-- `main` invokes `sync` exactly when neither query flag is set, the
merged configuration has a source, and the destination list is nonempty;
the parameters of the invocation are the merged configuration's fields. -/
theorem main_syncCalled_inv (args : Args) (w : World) (src : String)
    (ds : List String) (dr : Bool)
    (h : (main args w).syncCalled = some (src, ds, dr)) :
    args.failed = false ∧ args.clear_failed = false
    ∧ (load_config args w.cfgFS).source = some src
    ∧ (load_config args w.cfgFS).destinations = ds ∧ ds ≠ []
    ∧ (load_config args w.cfgFS).dry_run = dr := by
  by_cases hf : args.failed
  · simp [main, hf] at h
  · by_cases hc : args.clear_failed
    · simp [main, hf, hc] at h
    · rcases hs : (load_config args w.cfgFS).source with _ | src'
      · simp [main, hf, hc, hs] at h
      · by_cases hd : (load_config args w.cfgFS).destinations = []
        · simp [main, hf, hc, hs, hd] at h
        · by_cases he : w.dirExists src'
          · simp [main, hf, hc, hs, hd, he] at h
            obtain ⟨h1, h2, h3⟩ := h
            subst h1
            exact ⟨by simp [hf], by simp [hc], rfl, h2, h2 ▸ hd, h3⟩
          · simp [main, hf, hc, hs, hd, he] at h
            obtain ⟨h1, h2, h3⟩ := h
            subst h1
            exact ⟨by simp [hf], by simp [hc], rfl, h2, h2 ▸ hd, h3⟩

/-- C6: the State Store round-trip: immediately after
`record_failure f d e`, `get_failed_files` contains a record with exactly
that file, destination and error; after `clear_failed_files`,
`get_failed_files` is empty, and stays empty until a new failure is
recorded (a fresh `record_failure` after a clear yields exactly the new
record). -/
theorem state_store_round_trip :
    (∀ (store : List FailureRecord) (f d e : String) (now : Nat),
      ∃ r ∈ get_failed_files (record_failure store f d e now),
        r.file = f ∧ r.dest = d ∧ r.error = e)
    ∧ (∀ store : List FailureRecord,
        get_failed_files (clear_failed_files store) = [])
    ∧ (∀ (store : List FailureRecord) (f d e : String) (now : Nat),
        get_failed_files (record_failure (clear_failed_files store) f d e now)
          = [⟨f, d, e, now⟩]) := by
  refine ⟨fun store f d e now => ⟨⟨f, d, e, now⟩, ?_, rfl, rfl, rfl⟩,
    fun _ => rfl, fun _ _ _ _ _ => rfl⟩
  simp [get_failed_files, record_failure]

/-- C8: when both `--failed` and `--clear-failed` are passed, `--failed`
wins: `main` prints the failed-files report and returns; the persisted
store is unchanged, `clear_failed_files` is never called, and `sync` is
never invoked. -/
theorem failed_flag_precedence (args : Args) (w : World)
    (hf : args.failed = true) (hcf : args.clear_failed = true) :
    (main args w).output = show_failed_files w.store
    ∧ (main args w).store = w.store
    ∧ (main args w).clearCalled = false
    ∧ (main args w).syncCalled = none := by
  simp [main, hf]

/-- C8 witness: concrete invocation with both flags set. -/
theorem failed_flag_precedence_witness :
    (main { failed := true, clear_failed := true } exWorld).store = exWorld.store
    ∧ (main { failed := true, clear_failed := true } exWorld).clearCalled = false
    ∧ (main { failed := true, clear_failed := true } exWorld).syncCalled = none :=
  ⟨(failed_flag_precedence _ exWorld rfl rfl).2.1,
   (failed_flag_precedence _ exWorld rfl rfl).2.2.1,
   (failed_flag_precedence _ exWorld rfl rfl).2.2.2⟩

/-- C10: when the chosen config-file path (explicit `--config` or the
default `~/.dubler/config.json`) does not exist, `load_config` reports no
error and returns the built-in defaults updated only with the
CLI-provided values. -/
theorem load_config_missing_file (args : Args)
    (cfgFS : String → Option FileConfig)
    (h : cfgFS (args.config.getD defaultConfigPath) = none) :
    load_config args cfgFS = applyCliOverrides {} args := by
  unfold load_config baseConfig
  rw [h]

/-- C10 witness: an explicitly passed `--config` path with no file there
is silently ignored. -/
theorem load_config_missing_file_witness :
    load_config { config := some "/nope/cfg.json", source := some "/s" } noCfg
      = applyCliOverrides {} { config := some "/nope/cfg.json", source := some "/s" } :=
  load_config_missing_file _ _ rfl

/-- C9: in the merged configuration the `dry_run` and `verbose` booleans
are the logical OR of the file/default layer and the CLI store-true flag:
a flag forces the field to `true`, an omitted flag leaves a file-enabled
`true` in place, and the CLI can never turn either field off. -/
theorem load_config_flags_are_or (args : Args)
    (cfgFS : String → Option FileConfig) :
    (load_config args cfgFS).dry_run
        = ((baseConfig args cfgFS).dry_run || args.dry_run)
    ∧ (load_config args cfgFS).verbose
        = ((baseConfig args cfgFS).verbose || args.verbose)
    ∧ (∀ fc, cfgFS (args.config.getD defaultConfigPath) = some fc →
        (baseConfig args cfgFS).dry_run = fc.dry_run.getD false
        ∧ (baseConfig args cfgFS).verbose = fc.verbose.getD false) := by
  refine ⟨(applyCliOverrides_fields _ args).2.2.1,
    (applyCliOverrides_fields _ args).2.2.2, fun fc hfc => ?_⟩
  unfold baseConfig
  rw [hfc]
  exact ⟨rfl, rfl⟩

/-- C9 witness: a config file enabling `dry_run` with no CLI flag keeps
`dry_run = true`; the verbose flag forces `verbose = true`. -/
theorem load_config_flags_are_or_witness :
    (load_config { verbose := true }
        (fun _ => some { dry_run := some true })).dry_run = (true || false)
    ∧ (load_config { verbose := true }
        (fun _ => some { dry_run := some true })).verbose = (false || true) :=
  ⟨(load_config_flags_are_or { verbose := true }
      (fun _ => some { dry_run := some true })).1,
   (load_config_flags_are_or { verbose := true }
      (fun _ => some { dry_run := some true })).2.1⟩

/-- C2: `load_config` merges with layered precedence — for every field, a
CLI-supplied value overrides the config-file value, which overrides the
built-in default — and the configuration `main` passes to
`Synchronizer.sync` is exactly that merged configuration's source,
destination list and dry-run flag. -/
theorem load_config_layered_precedence (args : Args)
    (cfgFS : String → Option FileConfig) :
    (∀ s, args.source = some s → (load_config args cfgFS).source = some s)
    ∧ (∀ ds, args.dest = some ds → ds ≠ [] →
        (load_config args cfgFS).destinations = ds)
    ∧ (args.dry_run = true → (load_config args cfgFS).dry_run = true)
    ∧ (args.verbose = true → (load_config args cfgFS).verbose = true)
    ∧ (∀ fc, cfgFS (args.config.getD defaultConfigPath) = some fc →
        (args.source = none → (load_config args cfgFS).source = fc.source)
        ∧ (args.dest = none →
            (load_config args cfgFS).destinations = fc.destinations.getD [])
        ∧ (args.dry_run = false →
            (load_config args cfgFS).dry_run = fc.dry_run.getD false)
        ∧ (args.verbose = false →
            (load_config args cfgFS).verbose = fc.verbose.getD false))
    ∧ (cfgFS (args.config.getD defaultConfigPath) = none →
        (args.source = none → (load_config args cfgFS).source = none)
        ∧ (args.dest = none → (load_config args cfgFS).destinations = [])
        ∧ (args.dry_run = false → (load_config args cfgFS).dry_run = false)
        ∧ (args.verbose = false → (load_config args cfgFS).verbose = false))
    ∧ (∀ (w : World), w.cfgFS = cfgFS →
        ∀ src ds dr, (main args w).syncCalled = some (src, ds, dr) →
          (load_config args cfgFS).source = some src
          ∧ (load_config args cfgFS).destinations = ds
          ∧ (load_config args cfgFS).dry_run = dr) := by
  obtain ⟨hsrc, hdst, hdry, hverb⟩ := applyCliOverrides_fields (baseConfig args cfgFS) args
  refine ⟨?_, ?_, ?_, ?_, ?_, ?_, ?_⟩
  · intro s hs
    rw [load_config, hsrc, hs]
  · intro ds hds hne
    rw [load_config, hdst, hds]
    simp [List.isEmpty_iff, hne]
  · intro h
    rw [load_config, hdry, h, Bool.or_true]
  · intro h
    rw [load_config, hverb, h, Bool.or_true]
  · intro fc hfc
    have hbase : baseConfig args cfgFS = Config.from_file fc := by
      unfold baseConfig
      rw [hfc]
    refine ⟨fun h => ?_, fun h => ?_, fun h => ?_, fun h => ?_⟩
    · rw [load_config, hsrc, h, hbase]; rfl
    · rw [load_config, hdst, h, hbase]; rfl
    · rw [load_config, hdry, h, hbase, Bool.or_false]; rfl
    · rw [load_config, hverb, h, hbase, Bool.or_false]; rfl
  · intro hfc
    have hbase : baseConfig args cfgFS = {} := by
      unfold baseConfig
      rw [hfc]
    refine ⟨fun h => ?_, fun h => ?_, fun h => ?_, fun h => ?_⟩
    · rw [load_config, hsrc, h, hbase]
    · rw [load_config, hdst, h, hbase]
    · rw [load_config, hdry, h, hbase, Bool.or_false]
    · rw [load_config, hverb, h, hbase, Bool.or_false]
  · intro w hw src ds dr hcall
    obtain ⟨_, _, h3, h4, _, h6⟩ := main_syncCalled_inv args w src ds dr hcall
    rw [hw] at h3 h4 h6
    exact ⟨h3, h4, h6⟩

/-- C2 witness: the CLI source overrides the file's source, the file's
destinations survive an absent CLI `--dest`, and `main` passes the merged
triple to `sync`. -/
theorem load_config_layered_precedence_witness :
    (load_config { source := some "/cli-src" }
        (fun _ => some { source := some "/file-src",
                         destinations := some ["/file-dest"] })).source
      = some "/cli-src"
    ∧ (load_config { source := some "/cli-src" }
        (fun _ => some { source := some "/file-src",
                         destinations := some ["/file-dest"] })).destinations
      = ["/file-dest"] :=
  ⟨(load_config_layered_precedence { source := some "/cli-src" } _).1
      "/cli-src" rfl,
   ((load_config_layered_precedence { source := some "/cli-src" } _).2.2.2.2.1
      { source := some "/file-src", destinations := some ["/file-dest"] }
      rfl).2.1 rfl⟩

/-- C1 counterexample: `main` does not verify that the configured source
directory exists before invoking `Synchronizer.sync` — with a configured
but nonexistent source it still invokes `sync`. -/
theorem main_calls_sync_on_missing_source :
    missingSrcWorld.dirExists "/missing" = false
    ∧ (main { source := some "/missing", dest := some ["/d1"] }
         missingSrcWorld).syncCalled = some ("/missing", ["/d1"], false) :=
  ⟨rfl, rfl⟩

/-- C1 (amended): `main` refuses to call `sync` unless a source directory
is configured (CLI or config file) and at least one destination is
configured; an unset source is reported and `sync` is never invoked.
`main` does not check that the configured source directory exists or is
readable before invoking `sync`; such failures surface from `sync`
itself. -/
theorem main_requires_configured_source (args : Args) (w : World)
    (hf : args.failed = false) (hcf : args.clear_failed = false) :
    ((load_config args w.cfgFS).source = none →
        (main args w).syncCalled = none
        ∧ (main args w).output = [OutEvent.errNoSource])
    ∧ (∀ src ds dr, (main args w).syncCalled = some (src, ds, dr) →
        (load_config args w.cfgFS).source = some src ∧ ds ≠ []) := by
  constructor
  · intro hs
    constructor <;> simp [main, hf, hcf, hs]
  · intro src ds dr hcall
    obtain ⟨_, _, h3, _, h5, _⟩ := main_syncCalled_inv args w src ds dr hcall
    exact ⟨h3, h5⟩

/-- C1 (amended) witness: with no source configured anywhere, `main`
prints the error and never calls `sync`. -/
theorem main_requires_configured_source_witness :
    (main { dest := some ["/d1"] } missingSrcWorld).syncCalled = none
    ∧ (main { dest := some ["/d1"] } missingSrcWorld).output
        = [OutEvent.errNoSource] :=
  (main_requires_configured_source { dest := some ["/d1"] }
    missingSrcWorld rfl rfl).1 rfl

/-- C3: whenever `sync` completes, `main` prints the copied/skipped/failed
counts and never prints per-file failure details inline; the details
(file, destination, error, timestamp) are printed only by the `--failed`
query path (`show_failed_files`). -/
theorem main_prints_counts_not_details (args : Args) (w : World)
    (src : String)
    (hf : args.failed = false) (hcf : args.clear_failed = false)
    (hs : (load_config args w.cfgFS).source = some src)
    (hd : (load_config args w.cfgFS).destinations ≠ [])
    (he : w.dirExists src = true) :
    OutEvent.summary
        (sync (w.srcTree src) (load_config args w.cfgFS).destinations
          (load_config args w.cfgFS).dry_run w.canWrite w.destFS w.store
          w.now).res.copied.length
        (sync (w.srcTree src) (load_config args w.cfgFS).destinations
          (load_config args w.cfgFS).dry_run w.canWrite w.destFS w.store
          w.now).res.skipped.length
        (sync (w.srcTree src) (load_config args w.cfgFS).destinations
          (load_config args w.cfgFS).dry_run w.canWrite w.destFS w.store
          w.now).res.failed.length ∈ (main args w).output
    ∧ (∀ f d e t, OutEvent.failedDetail f d e t ∉ (main args w).output)
    ∧ (∀ (store : List FailureRecord) (r : FailureRecord),
        r ∈ get_failed_files store →
          OutEvent.failedDetail r.file r.dest r.error r.timestamp
            ∈ show_failed_files store) := by
  refine ⟨?_, ?_, ?_⟩
  · simp [main, hf, hcf, hs, hd, he]
  · intro f d e t
    simp [main, hf, hcf, hs, hd, he]
  · intro store r hr
    have hne : get_failed_files store ≠ [] := by
      intro h
      rw [h] at hr
      exact List.not_mem_nil r hr
    unfold show_failed_files
    rw [if_neg hne]
    exact List.mem_cons_of_mem _ (List.mem_map_of_mem _ hr)

/-- C3 witness: a concrete completed run prints `summary 1 0 0` and no
detail event; a recorded failure shows up in the `--failed` report. -/
theorem main_prints_counts_not_details_witness :
    OutEvent.summary 1 0 0
      ∈ (main { source := some "/s", dest := some ["/d"] } exWorld).output
    ∧ OutEvent.failedDetail "a.txt" "/d" "boom" 5
      ∉ (main { source := some "/s", dest := some ["/d"] } exWorld).output
    ∧ OutEvent.failedDetail "a.txt" "/d" "boom" 5
      ∈ show_failed_files [⟨"a.txt", "/d", "boom", 5⟩] :=
  ⟨(main_prints_counts_not_details { source := some "/s", dest := some ["/d"] }
      exWorld "/s" rfl rfl rfl (by decide) rfl).1,
   (main_prints_counts_not_details { source := some "/s", dest := some ["/d"] }
      exWorld "/s" rfl rfl rfl (by decide) rfl).2.1 "a.txt" "/d" "boom" 5,
   (main_prints_counts_not_details { source := some "/s", dest := some ["/d"] }
      exWorld "/s" rfl rfl rfl (by decide) rfl).2.2 [⟨"a.txt", "/d", "boom", 5⟩]
      ⟨"a.txt", "/d", "boom", 5⟩ (by simp [get_failed_files])⟩

/-! ## Helper lemmas about the Synchronizer -/

theorem fsLookup_write_eq (fs : DestFS) (d p c : String) :
    fsLookup (((d, p), c) :: fs) d p = some c := by
  simp [fsLookup]

theorem fsLookup_write_ne (fs : DestFS) (d p c d' q : String)
    (h : ¬(d' = d ∧ q = p)) :
    fsLookup (((d, p), c) :: fs) d' q = fsLookup fs d' q := by
  simp only [fsLookup, if_neg h]

theorem copyDecision_congr (fs₁ fs₂ : DestFS) (d p : String) (digest : Nat)
    (h : fsLookup fs₁ d p = fsLookup fs₂ d p) :
    copyDecision fs₁ d p digest = copyDecision fs₂ d p digest := by
  simp [copyDecision, h]

/-- A destination that already holds the source content is decided Skip. -/
theorem copyDecision_self (fs : DestFS) (d p c : String)
    (h : fsLookup fs d p = some c) :
    copyDecision fs d p (checksum c) = false := by
  simp [copyDecision, h]

/-- Under dry-run the inner destination loop never touches the
destination filesystem. -/
theorem syncDests_dry_fs (cw : String → String → Bool) (p c : String)
    (digest now : Nat) (dests : List String) (fs : DestFS) :
    (syncDests cw true p c digest now dests fs).fs = fs := by
  induction dests generalizing fs with
  | nil => rfl
  | cons d rest ih =>
    simp only [syncDests]
    split <;> simp [ih]

/-- The inner destination loop writes only at the relative path of the
file being processed: lookups at any other path are unchanged. -/
theorem syncDests_fs_lookup_other (cw : String → String → Bool)
    (dry : Bool) (p c : String) (digest now : Nat) (dests : List String)
    (fs : DestFS) (d' q : String) (h : q ≠ p) :
    fsLookup (syncDests cw dry p c digest now dests fs).fs d' q
      = fsLookup fs d' q := by
  induction dests generalizing fs with
  | nil => rfl
  | cons d rest ih =>
    simp only [syncDests]
    split
    · split
      · simp [ih]
      · split
        · have hw := fsLookup_write_ne fs d p c d' q (fun hc => h hc.2)
          simp [ih, hw]
        · simp [ih]
    · simp [ih]

/-- At the processed file's own path, the filesystem after the inner loop
holds either the old content or the freshly written source content. -/
theorem syncDests_fs_lookup_self (cw : String → String → Bool)
    (dry : Bool) (p c : String) (digest now : Nat) (dests : List String)
    (fs : DestFS) (d : String) :
    fsLookup (syncDests cw dry p c digest now dests fs).fs d p
        = fsLookup fs d p
    ∨ fsLookup (syncDests cw dry p c digest now dests fs).fs d p = some c := by
  induction dests generalizing fs with
  | nil => exact Or.inl rfl
  | cons d0 rest ih =>
    simp only [syncDests]
    split
    · split
      · simpa using ih fs
      · split
        · rcases ih (((d0, p), c) :: fs) with h | h
          · by_cases hd : d = d0
            · subst hd
              rw [fsLookup_write_eq] at h
              exact Or.inr (by simpa using h)
            · rw [fsLookup_write_ne fs d0 p c d p (fun hc => hd hc.1)] at h
              exact Or.inl (by simpa using h)
          · exact Or.inr (by simpa using h)
        · simpa using ih fs
    · simpa using ih fs

/-- Under dry-run, processing one file never touches the destination
filesystem. -/
theorem syncFile_dry_fs (cw : String → String → Bool) (dests : List String)
    (now : Nat) (f : SrcFile) (fs : DestFS) :
    (syncFile cw true dests now f fs).1.fs = fs := by
  unfold syncFile
  cases hc : f.content <;> simp [hc, syncDests_dry_fs]

/-- Under dry-run, the whole walk never touches the destination
filesystem. -/
theorem syncGo_dry_fs (cw : String → String → Bool) (dests : List String)
    (now : Nat) (srcs : List SrcFile) (fs : DestFS) :
    (syncGo cw true dests now srcs fs).fs = fs := by
  induction srcs generalizing fs with
  | nil => rfl
  | cons f rest ih =>
    simp only [syncGo]
    simp [syncFile_dry_fs, ih]

/-- Dry/non-dry agreement for one file: if the non-dry filesystem agrees
with the dry one at the file's path except where the source content was
already written, every pair the non-dry loop copies is also copied
(reported as "would copy") by the dry loop. -/
theorem syncDests_copied_subset (cw : String → String → Bool) (p c : String)
    (now : Nat) (dests : List String) (fs₁ fs₂ : DestFS)
    (hInv : ∀ d, fsLookup fs₁ d p = fsLookup fs₂ d p
              ∨ fsLookup fs₁ d p = some c) :
    ∀ x ∈ (syncDests cw false p c (checksum c) now dests fs₁).copied,
      x ∈ (syncDests cw true p c (checksum c) now dests fs₂).copied := by
  induction dests generalizing fs₁ with
  | nil =>
    intro x hx
    simp [syncDests] at hx
  | cons d rest ih =>
    intro x hx
    rcases hInv d with heq | hself
    · have hcd := copyDecision_congr fs₁ fs₂ d p (checksum c) heq
      by_cases hc2 : copyDecision fs₂ d p (checksum c) = true
      · have hc1 : copyDecision fs₁ d p (checksum c) = true := hcd.trans hc2
        by_cases hw : cw d p = true
        · have hInv' : ∀ d', fsLookup (((d, p), c) :: fs₁) d' p
              = fsLookup fs₂ d' p
              ∨ fsLookup (((d, p), c) :: fs₁) d' p = some c := by
            intro d'
            by_cases hd : d' = d
            · subst hd
              exact Or.inr (fsLookup_write_eq fs₁ d' p c)
            · rw [fsLookup_write_ne fs₁ d p c d' p (fun hcc => hd hcc.1)]
              exact hInv d'
          simp only [syncDests, hc1, hc2, hw, if_true, Bool.false_eq_true,
            if_false] at hx ⊢
          simp only [List.mem_cons] at hx ⊢
          rcases hx with hx | hx
          · exact Or.inl hx
          · exact Or.inr (ih _ hInv' x hx)
        · have hwf : cw d p = false := by
            cases hcw : cw d p
            · rfl
            · exact absurd hcw hw
          simp only [syncDests, hc1, hc2, hwf, if_true, Bool.false_eq_true,
            if_false] at hx ⊢
          simp only [List.mem_cons] at hx ⊢
          exact Or.inr (ih _ hInv x hx)
      · have hc2f : copyDecision fs₂ d p (checksum c) = false := by
          cases hcc : copyDecision fs₂ d p (checksum c)
          · rfl
          · exact absurd hcc hc2
        have hc1f : copyDecision fs₁ d p (checksum c) = false :=
          hcd.trans hc2f
        simp only [syncDests, hc1f, hc2f, Bool.false_eq_true, if_false] at hx ⊢
        exact ih _ hInv x hx
    · have hc1f : copyDecision fs₁ d p (checksum c) = false :=
        copyDecision_self fs₁ d p c hself
      simp only [syncDests, hc1f, Bool.false_eq_true, if_false] at hx
      by_cases hc2 : copyDecision fs₂ d p (checksum c) = true
      · simp only [syncDests, hc2, if_true]
        simp only [List.mem_cons]
        exact Or.inr (ih _ hInv x hx)
      · have hc2f : copyDecision fs₂ d p (checksum c) = false := by
          cases hcc : copyDecision fs₂ d p (checksum c)
          · rfl
          · exact absurd hcc hc2
        simp only [syncDests, hc2f, Bool.false_eq_true, if_false]
        exact ih _ hInv x hx

/-- Dry/non-dry agreement over the walk: under distinct source paths,
every pair copied by the non-dry walk is reported as a Copy by the
dry-run walk started from the same destination state. -/
theorem syncGo_copied_subset (cw : String → String → Bool)
    (dests : List String) (now : Nat) (srcs : List SrcFile)
    (fs₁ fs₂ : DestFS)
    (hnd : (srcs.map SrcFile.path).Nodup)
    (hagree : ∀ f ∈ srcs, ∀ d,
      fsLookup fs₁ d f.path = fsLookup fs₂ d f.path) :
    ∀ x ∈ (syncGo cw false dests now srcs fs₁).res.copied,
      x ∈ (syncGo cw true dests now srcs fs₂).res.copied := by
  induction srcs generalizing fs₁ fs₂ with
  | nil =>
    intro x hx
    simp [syncGo] at hx
  | cons f rest ih =>
    have hnd' : (rest.map SrcFile.path).Nodup := (List.nodup_cons.mp hnd).2
    have hpf : f.path ∉ rest.map SrcFile.path := (List.nodup_cons.mp hnd).1
    intro x hx
    simp only [syncGo, List.mem_append] at hx ⊢
    rcases hc : f.content with _ | c
    · simp only [syncFile, hc] at hx ⊢
      rcases hx with hx | hx
      · simp at hx
      · refine Or.inr (ih _ _ hnd' ?_ x hx)
        intro f' hf' d
        exact hagree f' (List.mem_cons_of_mem f hf') d
    · simp only [syncFile, hc] at hx ⊢
      rcases hx with hx | hx
      · exact Or.inl (syncDests_copied_subset cw f.path c now dests fs₁ fs₂
          (fun d => Or.inl (hagree f (List.mem_cons_self f rest) d)) x hx)
      · refine Or.inr (ih _ _ hnd' ?_ x hx)
        intro f' hf' d
        have hne : f'.path ≠ f.path := by
          intro hpp
          exact hpf (hpp ▸ List.mem_map_of_mem SrcFile.path hf')
        rw [syncDests_fs_lookup_other cw false f.path c (checksum c) now dests
          fs₁ d f'.path hne,
          syncDests_dry_fs cw f.path c (checksum c) now dests fs₂]
        exact hagree f' (List.mem_cons_of_mem f hf') d

/-- C4: dry-run non-mutation: with the distinct relative paths produced
by the source walk, `dry_run = true` never changes any destination-side
state, and the dry-run SyncResult still reports every Copy decision a
non-dry run from the same state would perform. -/
theorem sync_dry_run_non_mutation (srcs : List SrcFile)
    (dests : List String) (cw : String → String → Bool) (fs : DestFS)
    (store : List FailureRecord) (now : Nat)
    (hnd : (srcs.map SrcFile.path).Nodup) :
    (sync srcs dests true cw fs store now).fs = fs
    ∧ ∀ x ∈ (sync srcs dests false cw fs store now).res.copied,
        x ∈ (sync srcs dests true cw fs store now).res.copied := by
  constructor
  · simpa [sync] using syncGo_dry_fs cw dests now srcs fs
  · intro x hx
    simp only [sync] at hx ⊢
    exact syncGo_copied_subset cw dests now srcs fs fs hnd
      (fun _ _ _ => rfl) x hx

/-- C4 witness: a concrete dry run leaves the destination untouched and
reports the copy the non-dry run performs. -/
theorem sync_dry_run_non_mutation_witness :
    (sync [⟨"a", some "X"⟩] ["/d"] true (fun _ _ => true) [] [] 0).fs = []
    ∧ ("a", "/d") ∈ (sync [⟨"a", some "X"⟩] ["/d"] true
        (fun _ _ => true) [] [] 0).res.copied :=
  ⟨(sync_dry_run_non_mutation [⟨"a", some "X"⟩] ["/d"] (fun _ _ => true)
      [] [] 0 (by simp)).1,
   (sync_dry_run_non_mutation [⟨"a", some "X"⟩] ["/d"] (fun _ _ => true)
      [] [] 0 (by simp)).2 ("a", "/d") (by decide)⟩

/-- The checksum log of a walk is a sublist of the walked source paths:
each discovered file contributes at most one source-digest computation
(none when the file is unreadable). -/
theorem syncGo_chkLog_sublist (cw : String → String → Bool) (dry : Bool)
    (dests : List String) (now : Nat) (srcs : List SrcFile) (fs : DestFS) :
    (syncGo cw dry dests now srcs fs).chkLog.Sublist
      (srcs.map SrcFile.path) := by
  induction srcs generalizing fs with
  | nil => simp [syncGo]
  | cons f rest ih =>
    simp only [syncGo, List.map_cons]
    rcases hc : f.content with _ | c
    · simp only [syncFile, hc]
      exact List.Sublist.cons f.path (ih fs)
    · simp only [syncFile, hc]
      exact List.Sublist.cons₂ f.path
        (ih (syncDests cw dry f.path c (checksum c) now dests fs).fs)

/-- C7: within a single `sync` call over a source walk with distinct
relative paths, each source file's content checksum is computed at most
once; the one digest is reused against every destination. -/
theorem sync_checksum_once (srcs : List SrcFile) (dests : List String)
    (dry : Bool) (cw : String → String → Bool) (fs : DestFS)
    (store : List FailureRecord) (now : Nat) (p : String)
    (hnd : (srcs.map SrcFile.path).Nodup) :
    (sync srcs dests dry cw fs store now).chkLog.count p ≤ 1 := by
  have hsub : (sync srcs dests dry cw fs store now).chkLog.Sublist
      (srcs.map SrcFile.path) := by
    simpa [sync] using syncGo_chkLog_sublist cw dry dests now srcs fs
  exact le_trans (hsub.count_le p) (List.nodup_iff_count_le_one.mp hnd p)

/-- C7 witness: a concrete two-file, two-destination run computes the
digest of `a` at most once. -/
theorem sync_checksum_once_witness :
    (sync [⟨"a", some "X"⟩, ⟨"b", some "Y"⟩] ["/d1", "/d2"] false
      (fun _ _ => true) [] [] 0).chkLog.count "a" ≤ 1 :=
  sync_checksum_once [⟨"a", some "X"⟩, ⟨"b", some "Y"⟩] ["/d1", "/d2"]
    false (fun _ _ => true) [] [] 0 "a" (by decide)

/-- A Skip decision means the destination already holds content with the
source digest. -/
theorem copyDecision_false_elim (fs : DestFS) (d p : String) (digest : Nat)
    (h : copyDecision fs d p digest = false) :
    ∃ e, fsLookup fs d p = some e ∧ checksum e = digest := by
  unfold copyDecision at h
  rcases hl : fsLookup fs d p with _ | e
  · rw [hl] at h
    simp at h
  · rw [hl] at h
    by_cases hce : checksum e = digest
    · exact ⟨e, rfl, hce⟩
    · simp [hce] at h

/-- After a non-dry, failure-free inner loop, every processed destination
holds content with the source digest at the file's path. -/
theorem syncDests_no_fail_synced (cw : String → String → Bool) (p c : String)
    (now : Nat) :
    ∀ (dests : List String) (fs : DestFS),
      (syncDests cw false p c (checksum c) now dests fs).failed = [] →
      ∀ d ∈ dests, ∃ e,
        fsLookup (syncDests cw false p c (checksum c) now dests fs).fs d p
          = some e
        ∧ checksum e = checksum c := by
  intro dests
  induction dests with
  | nil =>
    intro fs _ d hd
    simp at hd
  | cons d0 rest ih =>
    intro fs hfail d hd
    by_cases hc1 : copyDecision fs d0 p (checksum c) = true
    · by_cases hw : cw d0 p = true
      · simp only [syncDests, hc1, hw, if_true, Bool.false_eq_true,
          if_false] at hfail ⊢
        rcases List.mem_cons.mp hd with rfl | hdr
        · rcases syncDests_fs_lookup_self cw false p c (checksum c) now rest
            (((d, p), c) :: fs) d with hh | hh
          · exact ⟨c, by rw [hh]; exact fsLookup_write_eq fs d p c, rfl⟩
          · exact ⟨c, hh, rfl⟩
        · exact ih (((d0, p), c) :: fs) hfail d hdr
      · have hwf : cw d0 p = false := by
          cases hcw : cw d0 p
          · rfl
          · exact absurd hcw hw
        simp only [syncDests, hc1, hwf, if_true, Bool.false_eq_true,
          if_false] at hfail
        simp at hfail
    · have hc1f : copyDecision fs d0 p (checksum c) = false := by
        cases hcc : copyDecision fs d0 p (checksum c)
        · rfl
        · exact absurd hcc hc1
      simp only [syncDests, hc1f, Bool.false_eq_true, if_false] at hfail ⊢
      rcases List.mem_cons.mp hd with rfl | hdr
      · obtain ⟨e, he, hce⟩ := copyDecision_false_elim fs d p (checksum c) hc1f
        rcases syncDests_fs_lookup_self cw false p c (checksum c) now rest
            fs d with hh | hh
        · exact ⟨e, by rw [hh]; exact he, hce⟩
        · exact ⟨c, hh, rfl⟩
      · exact ih fs hfail d hdr

/-- The walk writes only at the paths of the walked files: lookups at any
other path are unchanged. -/
theorem syncGo_fs_lookup_other (cw : String → String → Bool) (dry : Bool)
    (dests : List String) (now : Nat) (d q : String) :
    ∀ (srcs : List SrcFile) (fs : DestFS), q ∉ srcs.map SrcFile.path →
      fsLookup (syncGo cw dry dests now srcs fs).fs d q = fsLookup fs d q := by
  intro srcs
  induction srcs with
  | nil =>
    intro fs _
    rfl
  | cons f rest ih =>
    intro fs h
    simp only [List.map_cons, List.mem_cons, not_or] at h
    rcases hc : f.content with _ | c
    · simp only [syncGo, syncFile, hc]
      exact ih fs h.2
    · simp only [syncGo, syncFile, hc]
      rw [ih ((syncDests cw dry f.path c (checksum c) now dests fs).fs) h.2]
      exact syncDests_fs_lookup_other cw dry f.path c (checksum c) now dests
        fs d q h.1

/-- If every destination already holds content-equal data for the file,
the inner loop skips every destination and changes nothing. -/
theorem syncDests_all_match (cw : String → String → Bool) (p c : String)
    (now : Nat) :
    ∀ (dests : List String) (fs : DestFS),
      (∀ d ∈ dests, ∃ e, fsLookup fs d p = some e ∧ checksum e = checksum c) →
      syncDests cw false p c (checksum c) now dests fs
        = ⟨[], dests.map (fun d => (p, d)), [], [], fs⟩ := by
  intro dests
  induction dests with
  | nil =>
    intro fs _
    rfl
  | cons d rest ih =>
    intro fs h
    obtain ⟨e, he, hce⟩ := h d (List.mem_cons_self d rest)
    have hcd : copyDecision fs d p (checksum c) = false := by
      simp [copyDecision, he, hce]
    simp only [syncDests, hcd, Bool.false_eq_true, if_false]
    rw [ih fs (fun d' hd' => h d' (List.mem_cons_of_mem d hd'))]
    rfl

/-- If every walked file is readable and already content-equal at every
destination, the non-dry walk copies nothing, fails nothing, skips every
(file, destination) pair, and leaves the filesystem unchanged. -/
theorem syncGo_all_match (cw : String → String → Bool) (dests : List String)
    (now : Nat) :
    ∀ (srcs : List SrcFile) (fs : DestFS),
      (∀ f ∈ srcs, ∀ d ∈ dests, ∃ cf e, f.content = some cf
        ∧ fsLookup fs d f.path = some e ∧ checksum e = checksum cf) →
      (syncGo cw false dests now srcs fs).res.copied = []
      ∧ (syncGo cw false dests now srcs fs).res.failed = []
      ∧ (syncGo cw false dests now srcs fs).res.skipped.length
          = srcs.length * dests.length
      ∧ (syncGo cw false dests now srcs fs).fs = fs := by
  intro srcs
  induction srcs with
  | nil =>
    intro fs _
    exact ⟨rfl, rfl, by simp [syncGo], rfl⟩
  | cons f rest ih =>
    intro fs h
    have hrest := fun f' hf' => h f' (List.mem_cons_of_mem f hf')
    rcases hcont : f.content with _ | cf
    · rcases hdst : dests with _ | ⟨d0, ds⟩
      · obtain ⟨h1, h2, h3, h4⟩ := ih fs hrest
        simp only [syncGo, syncFile, hcont, hdst] at h1 h2 h3 h4 ⊢
        refine ⟨by simpa using h1, by simpa using h2, ?_, by simpa using h4⟩
        simpa using h3
      · exfalso
        obtain ⟨cf, e, hcf, _, _⟩ := h f (List.mem_cons_self f rest) d0
          (by rw [hdst]; exact List.mem_cons_self d0 ds)
        rw [hcont] at hcf
        exact Option.noConfusion hcf
    · have hmatch : ∀ d ∈ dests, ∃ e,
          fsLookup fs d f.path = some e ∧ checksum e = checksum cf := by
        intro d hd
        obtain ⟨cf', e, hcf', he, hce⟩ := h f (List.mem_cons_self f rest) d hd
        rw [hcont] at hcf'
        obtain rfl : cf = cf' := Option.some.inj hcf'
        exact ⟨e, he, hce⟩
      have hsd := syncDests_all_match cw f.path cf now dests fs hmatch
      obtain ⟨h1, h2, h3, h4⟩ := ih fs hrest
      simp only [syncGo, syncFile, hcont, hsd]
      refine ⟨by simpa using h1, by simpa using h2, ?_, by simpa using h4⟩
      simp only [List.length_append, List.length_map, h3, List.length_cons]
      ring

/-- After a non-dry, failure-free walk over distinct paths, every walked
file is readable and every destination holds content-equal data for it. -/
theorem syncGo_no_fail_synced (cw : String → String → Bool)
    (dests : List String) (now : Nat) :
    ∀ (srcs : List SrcFile) (fs : DestFS),
      (srcs.map SrcFile.path).Nodup →
      (syncGo cw false dests now srcs fs).res.failed = [] →
      ∀ f ∈ srcs, ∀ d ∈ dests, ∃ cf e, f.content = some cf
        ∧ fsLookup (syncGo cw false dests now srcs fs).fs d f.path = some e
        ∧ checksum e = checksum cf := by
  intro srcs
  induction srcs with
  | nil =>
    intro fs _ _ f hf
    simp at hf
  | cons f0 rest ih =>
    intro fs hnd hfail f hf d hd
    have hnd' : (rest.map SrcFile.path).Nodup := (List.nodup_cons.mp hnd).2
    have hp0 : f0.path ∉ rest.map SrcFile.path := (List.nodup_cons.mp hnd).1
    rcases hcont : f0.content with _ | c0
    · exfalso
      simp only [syncGo, syncFile, hcont] at hfail
      have : dests.map (fun d' => (f0.path, d')) = [] :=
        (List.append_eq_nil.mp (by simpa using hfail)).1
      rw [List.map_eq_nil_iff] at this
      rw [this] at hd
      exact List.not_mem_nil d hd
    · simp only [syncGo, syncFile, hcont] at hfail ⊢
      have hsplit := List.append_eq_nil.mp (by simpa using hfail)
      rcases List.mem_cons.mp hf with rfl | hfr
      · obtain ⟨e, he, hce⟩ := syncDests_no_fail_synced cw f.path c0 now dests
          fs hsplit.1 d hd
        refine ⟨c0, e, hcont, ?_, hce⟩
        rw [syncGo_fs_lookup_other cw false dests now d f.path rest
          ((syncDests cw false f.path c0 (checksum c0) now dests fs).fs) hp0]
        exact he
      · exact ih ((syncDests cw false f0.path c0 (checksum c0) now dests fs).fs)
          hnd' hsplit.2 f hfr d hd

/-- C5: idempotence: after a non-dry `sync` over distinct source paths
completes with no failures, an immediately repeated `sync` with no source
changes copies nothing and fails nothing — every (file, destination) pair
is decided Skip — and the destinations stay unchanged. -/
theorem sync_idempotent (srcs : List SrcFile) (dests : List String)
    (cw cw₂ : String → String → Bool) (fs : DestFS)
    (store store₂ : List FailureRecord) (now now₂ : Nat)
    (hnd : (srcs.map SrcFile.path).Nodup)
    (hfail : (sync srcs dests false cw fs store now).res.failed = []) :
    (sync srcs dests false cw₂ (sync srcs dests false cw fs store now).fs
        store₂ now₂).res.copied = []
    ∧ (sync srcs dests false cw₂ (sync srcs dests false cw fs store now).fs
        store₂ now₂).res.failed = []
    ∧ (sync srcs dests false cw₂ (sync srcs dests false cw fs store now).fs
        store₂ now₂).res.skipped.length = srcs.length * dests.length
    ∧ (sync srcs dests false cw₂ (sync srcs dests false cw fs store now).fs
        store₂ now₂).fs = (sync srcs dests false cw fs store now).fs := by
  have hfail' : (syncGo cw false dests now srcs fs).res.failed = [] := by
    simpa [sync] using hfail
  have hsynced := syncGo_no_fail_synced cw dests now srcs fs hnd hfail'
  have hall := syncGo_all_match cw₂ dests now₂ srcs
    (syncGo cw false dests now srcs fs).fs hsynced
  simpa [sync] using hall

/-- C5 witness: a concrete failure-free run followed by a rerun: the
rerun copies nothing, fails nothing and skips both pairs. -/
theorem sync_idempotent_witness :
    (sync [⟨"a", some "X"⟩] ["/d1", "/d2"] false (fun _ _ => true)
        (sync [⟨"a", some "X"⟩] ["/d1", "/d2"] false (fun _ _ => true)
          [] [] 0).fs [] 1).res.copied = []
    ∧ (sync [⟨"a", some "X"⟩] ["/d1", "/d2"] false (fun _ _ => true)
        (sync [⟨"a", some "X"⟩] ["/d1", "/d2"] false (fun _ _ => true)
          [] [] 0).fs [] 1).res.skipped.length = 1 * 2 :=
  ⟨(sync_idempotent [⟨"a", some "X"⟩] ["/d1", "/d2"] (fun _ _ => true)
      (fun _ _ => true) [] [] [] 0 1 (by decide) (by decide)).1,
   (sync_idempotent [⟨"a", some "X"⟩] ["/d1", "/d2"] (fun _ _ => true)
      (fun _ _ => true) [] [] [] 0 1 (by decide) (by decide)).2.2.1⟩

end Dubler
